import Mathlib

/-!
# CPlusPass: the `CryptoEngine` wrapper around libsodium

A shallow embedding of `include/ciphertext.hpp`, `include/crypto_engine.hpp`
and `src/crypto_engine.cpp`.

* Byte buffers (`std::vector<uint8_t>`, `std::string`) are `List UInt8`.
* A method ends in an `Outcome`: a returned value, an exception carrying the `what()`
  message, or a read past the end of a vector, after which the behaviour of the program
  is undefined.
* The libsodium primitives are not part of the repository: they are the fields
  of `Sodium`, arbitrary functions of the bytes they are handed. One value of `Sodium`
  is the library as it behaves during one run: the status of `crypto_pwhash` depends on
  the memory the process can obtain, so two runs are described by two values.
* `randombytes_buf` reads from an explicit random source `Rng`.
* A reference parameter that the callee assigns (`outSalt`) is returned
  together with the result.
-/

namespace CPlusPass

/-! ## Buffers -/

/-- A value-initialised `std::vector<uint8_t>(n)`: `n` zero bytes. -/
def zeros (n : Nat) : List UInt8 := List.replicate n 0

/-- The method `v.resize(n)`: the first `n` bytes of `v`, padded with zero bytes when `v` is
shorter. -/
def resize (v : List UInt8) (n : Nat) : List UInt8 :=
  v.take n ++ zeros (n - v.length)

/-- The state of the buffer `buf` after a primitive has written the bytes `out` through
`buf.data()`: the leading bytes are replaced, the size of the vector is unchanged. -/
def writeBuf (buf out : List UInt8) : List UInt8 :=
  (out ++ buf.drop out.length).take buf.length

/-- What a primitive reads through `buf.data()` when it reads `n` bytes: a pointer
carries no length, so whatever the vector holds beyond its first `n` bytes is never seen.
When the vector has fewer than `n` bytes the read leaves the vector and there is no
defined value: `none`. -/
def view (n : Nat) (buf : List UInt8) : Option (List UInt8) :=
  if n ≤ buf.length then some (buf.take n) else none

/-- How a method ends: it returns a value, it throws `std::runtime_error` with a message,
or a primitive was made to read past the end of a vector, where the behaviour of the
program is undefined (a crash, or a result computed from bytes that are not the
vector's). -/
inductive Outcome (α : Type) where
  | ok (a : α)
  | error (msg : String)
  | outOfBounds
deriving DecidableEq, Repr

/-! ## libsodium -/

/-- The constant `crypto_aead_chacha20poly1305_ietf_KEYBYTES`. -/
def crypto_aead_chacha20poly1305_ietf_KEYBYTES : Nat := 32
/-- The constant `crypto_aead_chacha20poly1305_ietf_NPUBBYTES`. -/
def crypto_aead_chacha20poly1305_ietf_NPUBBYTES : Nat := 12
/-- The constant `crypto_aead_chacha20poly1305_ietf_ABYTES`. -/
def crypto_aead_chacha20poly1305_ietf_ABYTES : Nat := 16
/-- The constant `crypto_pwhash_SALTBYTES`. -/
def crypto_pwhash_SALTBYTES : Nat := 16
/-- The constant `crypto_pwhash_ALG_ARGON2ID13`. -/
def crypto_pwhash_ALG_ARGON2ID13 : Nat := 2

/-- Outcome of `crypto_pwhash`: the status and the bytes written to `out`. -/
structure PwhashOut where
  ret : Int
  out : List UInt8
deriving DecidableEq, Repr

/-- Outcome of `crypto_aead_chacha20poly1305_ietf_encrypt_detached`: the status, the bytes
written to `c` and the bytes written to `mac`; the number of tag bytes is what the
primitive stores in `*maclen_p`. -/
structure EncOut where
  ret : Int
  c : List UInt8
  mac : List UInt8
deriving DecidableEq, Repr

/-- Outcome of `crypto_aead_chacha20poly1305_ietf_decrypt_detached`: the status and the
bytes written to `m`. -/
structure DecOut where
  ret : Int
  m : List UInt8
deriving DecidableEq, Repr

/-- The libsodium primitives the engine calls, as functions of the bytes they read
(`nsec` is unused and omitted; output pointers are the results). -/
structure Sodium where
  /-- Status of the call `sodium_init()` number `n` (counted from 0) of the process. -/
  sodium_init : Nat → Int
  /-- Argon2id behind `crypto_pwhash`: `outlen`, `passwd`, `salt`, `opslimit`, `memlimit`,
  `alg`. -/
  crypto_pwhash : (outlen : Nat) → (passwd : List UInt8) → (salt : List UInt8) →
    (opslimit : Nat) → (memlimit : Nat) → (alg : Nat) → PwhashOut
  /-- ChaCha20-Poly1305 detached encryption: `m`, `ad`, `npub`, `k`. -/
  encrypt_detached : (m : List UInt8) → (ad : List UInt8) → (npub : List UInt8) →
    (k : List UInt8) → EncOut
  /-- ChaCha20-Poly1305 detached decryption: `c`, `mac`, `ad`, `npub`, `k`. -/
  decrypt_detached : (c : List UInt8) → (mac : List UInt8) → (ad : List UInt8) →
    (npub : List UInt8) → (k : List UInt8) → DecOut

/-- The call `crypto_pwhash(out, outlen, passwd, passwdlen, salt, opslimit, memlimit, alg)`
on the caller's buffers: `crypto_pwhash_SALTBYTES` bytes are read through `salt`; returns
the status and the buffer `out` after the call, `none` when the read leaves `salt`. -/
def Sodium.pwhash (S : Sodium) (out : List UInt8) (outlen : Nat) (passwd salt : List UInt8)
    (opslimit memlimit alg : Nat) : Option (Int × List UInt8) :=
  match view crypto_pwhash_SALTBYTES salt with
  | some salt =>
    let r := S.crypto_pwhash outlen passwd salt opslimit memlimit alg
    some (r.ret, writeBuf out r.out)
  | none => none

/-- The call `crypto_aead_chacha20poly1305_ietf_encrypt_detached(c, mac, maclen_p, m, mlen,
ad, adlen, nsec, npub, k)` on the caller's buffers: `NPUBBYTES` bytes are read through
`npub`, `KEYBYTES` through `k`; returns the status, the buffers `c` and `mac` after the
call, and `*maclen_p`, `none` when a read leaves `npub` or `k`. -/
def Sodium.encryptDetached (S : Sodium) (c mac : List UInt8) (m ad npub k : List UInt8) :
    Option (Int × List UInt8 × List UInt8 × Nat) :=
  match view crypto_aead_chacha20poly1305_ietf_NPUBBYTES npub,
    view crypto_aead_chacha20poly1305_ietf_KEYBYTES k with
  | some npub, some k =>
    let o := S.encrypt_detached m ad npub k
    some (o.ret, writeBuf c o.c, writeBuf mac o.mac, o.mac.length)
  | _, _ => none

/-- The call `crypto_aead_chacha20poly1305_ietf_decrypt_detached(m, nsec, c, clen, mac, ad,
adlen, npub, k)` on the caller's buffers: `ABYTES` bytes are read through `mac`,
`NPUBBYTES` through `npub`, `KEYBYTES` through `k`; returns the status and the buffer `m`
after the call, `none` when a read leaves `mac`, `npub` or `k`. -/
def Sodium.decryptDetached (S : Sodium) (m : List UInt8) (c mac ad npub k : List UInt8) :
    Option (Int × List UInt8) :=
  match view crypto_aead_chacha20poly1305_ietf_ABYTES mac,
    view crypto_aead_chacha20poly1305_ietf_NPUBBYTES npub,
    view crypto_aead_chacha20poly1305_ietf_KEYBYTES k with
  | some mac, some npub, some k =>
    let o := S.decrypt_detached c mac ad npub k
    some (o.ret, writeBuf m o.m)
  | _, _, _ => none

/-- The random source behind `randombytes_buf`: an arbitrary byte stream and the number of
bytes drawn so far. -/
structure Rng where
  tape : Nat → UInt8
  pos : Nat

/-- The call `randombytes_buf(buf, size)`: the next `size` bytes of the source. -/
def randombytes_buf (g : Rng) (size : Nat) : List UInt8 × Rng :=
  ((List.range size).map (fun i => g.tape (g.pos + i)), { g with pos := g.pos + size })

/-! ## `ciphertext.hpp` -/

/-- The bundle exchanged between `encrypt` and `decrypt`. -/
structure Ciphertext where
  iv : List UInt8
  data : List UInt8
  tag : List UInt8
deriving DecidableEq, Repr

/-! ## `crypto_engine.hpp` -/

/-- The data members of `CryptoEngine` with their default member initialisers. -/
structure CryptoEngine where
  saltSize : Nat := 16
  memoryCost : Nat := 32 * 1024
  timeCost : Nat := 2
  parallelism : Nat := 2
  keySize : Nat := crypto_aead_chacha20poly1305_ietf_KEYBYTES
  ivSize : Nat := crypto_aead_chacha20poly1305_ietf_NPUBBYTES
  tagSize : Nat := crypto_aead_chacha20poly1305_ietf_ABYTES
  libsodiumInitialized : Bool := false
deriving DecidableEq, Repr

/-! ## `crypto_engine.cpp` -/

/-- Message thrown by the constructor. -/
def initError : String := "libsodium could not be initialized on CryptoEngine declaration."
/-- Message thrown by `deriveKey`. -/
def kdfError : String := "Argon2id key derivation failed"
/-- Message thrown by `encrypt`. -/
def encryptError : String := "ChaCha20-Poly1305 encryption failed"
/-- Message thrown by `decrypt`. -/
def decryptError : String :=
  "ChaCha20-Poly1305 decryption failed or authentication tag invalid"

/-- The constructor `CryptoEngine::CryptoEngine()`. `calls` is the number of `sodium_init()`
calls the process has made so far; the new count is returned with the object. The
constructor reads no buffer: it returns the object or throws (`Except.error`). -/
def CryptoEngine.construct (S : Sodium) (calls : Nat) : Except String CryptoEngine × Nat :=
  let e : CryptoEngine := {}
  if !e.libsodiumInitialized then
    if S.sodium_init calls < 0 then
      (.error initError, calls + 1)
    else
      (.ok { e with libsodiumInitialized := true }, calls + 1)
  else
    (.ok e, calls)

/-- Constructs `n` engines one after the other in one process; stops at the first
construction that throws. Returns the engines built and the count of `sodium_init()`
calls. -/
def constructMany (S : Sodium) : Nat → Nat → List CryptoEngine × Nat
  | 0, calls => ([], calls)
  | n + 1, calls =>
    match CryptoEngine.construct S calls with
    | (.ok e, calls1) =>
      let r := constructMany S n calls1
      (e :: r.1, r.2)
    | (.error _, calls1) => ([], calls1)

/-- The `memlimit` argument of `crypto_pwhash`: `static_cast<size_t>(memoryCost * 1024)`, the
product taken in `std::uint32_t`. -/
def memlimit (e : CryptoEngine) : Nat := ((e.memoryCost * 1024) % 2 ^ 32) % 2 ^ 64

/-- What `deriveKey` leaves behind: the contents of `outSalt`, the key or the exception,
and the random source. -/
structure DeriveResult where
  outSalt : List UInt8
  result : Outcome (List UInt8)
  rng : Rng

/-- The method `CryptoEngine::deriveKey(passphrase, outSalt)`. -/
def CryptoEngine.deriveKey (e : CryptoEngine) (S : Sodium) (g : Rng)
    (passphrase : List UInt8) (outSalt : List UInt8) : DeriveResult :=
  let outSalt := resize outSalt e.saltSize
  let (rnd, g) := randombytes_buf g e.saltSize
  let outSalt := writeBuf outSalt rnd
  let key := zeros e.keySize
  match S.pwhash key e.keySize passphrase outSalt e.timeCost (memlimit e)
      crypto_pwhash_ALG_ARGON2ID13 with
  | none => { outSalt := outSalt, result := .outOfBounds, rng := g }
  | some (ret, key) =>
    if ret ≠ 0 then
      { outSalt := outSalt, result := .error kdfError, rng := g }
    else
      { outSalt := outSalt, result := .ok key, rng := g }

/-- The method `CryptoEngine::encrypt(key, plaintext)`. -/
def CryptoEngine.encrypt (e : CryptoEngine) (S : Sodium) (g : Rng)
    (key : List UInt8) (plaintext : List UInt8) : Outcome Ciphertext × Rng :=
  let iv := zeros e.ivSize
  let (rnd, g) := randombytes_buf g e.ivSize
  let iv := writeBuf iv rnd
  let data := zeros plaintext.length
  let tag := zeros e.tagSize
  match S.encryptDetached data tag plaintext [] iv key with
  | none => (.outOfBounds, g)
  | some (ret, data, tag, actualTagLen) =>
    if ret ≠ 0 ∨ actualTagLen ≠ e.tagSize then
      (.error encryptError, g)
    else
      (.ok { iv := iv, data := data, tag := tag }, g)

/-- The method `CryptoEngine::decrypt(key, blob)`. -/
def CryptoEngine.decrypt (_e : CryptoEngine) (S : Sodium)
    (key : List UInt8) (blob : Ciphertext) : Outcome (List UInt8) :=
  let decrypted := zeros blob.data.length
  match S.decryptDetached decrypted blob.data blob.tag [] blob.iv key with
  | none => .outOfBounds
  | some (ret, decrypted) =>
    if ret ≠ 0 then
      .error decryptError
    else
      .ok decrypted

/-- An engine object: every data member holds its initialiser, no method assigns one, and
only the constructor touches the flag. -/
def engine (flag : Bool) : CryptoEngine := { libsodiumInitialized := flag }

/-- The bytes of a `std::string` literal (ASCII). -/
def bytesOf (s : String) : List UInt8 := s.toList.map (fun ch => UInt8.ofNat ch.toNat)

/-- The plaintext of `main`. -/
def original : List UInt8 := bytesOf "SuperSecret123!"

/-- The passphrase of `main`. -/
def masterPassword : List UInt8 := bytesOf "myMasterPassword"

/-! ## A small instance of the primitives, for concrete evaluations -/

/-- The pad of the sample cipher: first key byte plus first nonce byte. -/
def samplePad (npub k : List UInt8) : UInt8 := k.headD 0 + npub.headD 0

/-- The tag of the sample cipher: sixteen copies of pad plus the sum of the ciphertext. -/
def sampleTag (c npub k : List UInt8) : List UInt8 :=
  List.replicate 16 (samplePad npub k + c.foldr (· + ·) 0)

/-- A sample of the primitives: a shift cipher with a checksum tag, a KDF that
repeats a checksum of its inputs, an initialisation that succeeds. -/
def sampleSodium : Sodium where
  sodium_init := fun n => if n = 0 then 0 else 1
  crypto_pwhash := fun outlen passwd salt opslimit memlimit _alg =>
    { ret := 0
      out := List.replicate outlen
        (passwd.foldr (· + ·) 0 + salt.foldr (· + ·) 0 + UInt8.ofNat (opslimit + memlimit)) }
  encrypt_detached := fun m _ad npub k =>
    let c := m.map (· + samplePad npub k)
    { ret := 0, c := c, mac := sampleTag c npub k }
  decrypt_detached := fun c mac _ad npub k =>
    if mac = sampleTag c npub k then
      { ret := 0, m := c.map (· - samplePad npub k) }
    else
      { ret := -1, m := zeros c.length }

/-- The sample primitives with a KDF that reports failure (out of memory). -/
def failingKdf : Sodium :=
  { sampleSodium with
    crypto_pwhash := fun outlen _ _ _ _ _ => { ret := -1, out := zeros outlen } }

/-- A sample random source: byte `i` of the stream is `7 * i + 1`. -/
def sampleRng : Rng := { tape := fun i => UInt8.ofNat (7 * i + 1), pos := 0 }

/-- A sample key: thirty-two bytes `0x2a`. -/
def sampleKey : List UInt8 := List.replicate 32 42

/-- A second sample random source: the same first sixteen bytes as `sampleRng`, bytes of
`0xff` afterwards, read from the start. -/
def otherRng : Rng :=
  { tape := fun i => if i < 16 then UInt8.ofNat (7 * i + 1) else 255, pos := 0 }

/-- The bundle `encrypt` returns for `original` under `sampleKey` with the sample
primitives and the sample random source. -/
def sampleBundle : Ciphertext :=
  { iv := [1, 8, 15, 22, 29, 36, 43, 50, 57, 64, 71, 78]
    data := [126, 160, 155, 144, 157, 126, 144, 142, 157, 144, 159, 92, 93, 94, 76]
    tag := List.replicate 16 220 }

/-- The sample bundle with one byte appended to its tag: 17 bytes of tag. -/
def longTagBundle : Ciphertext := { sampleBundle with tag := sampleBundle.tag ++ [0] }

/-- The sample bundle with one byte appended to its nonce: 13 bytes of iv. -/
def longIvBundle : Ciphertext := { sampleBundle with iv := sampleBundle.iv ++ [0] }

/-- The sample bundle with the lowest bit of its first data byte flipped. -/
def tamperedBundle : Ciphertext :=
  { sampleBundle with data := 127 :: sampleBundle.data.tail }

/-- The sample bundle with its tag emptied: 0 bytes of tag. -/
def emptyTagBundle : Ciphertext := { sampleBundle with tag := [] }

/-- The sample bundle with its last tag byte removed: 15 bytes of tag. -/
def shortTagBundle : Ciphertext := { sampleBundle with tag := List.replicate 15 220 }

/-- The sample bundle with its nonce emptied: 0 bytes of iv. -/
def emptyIvBundle : Ciphertext := { sampleBundle with iv := [] }

/-- A key other than `sampleKey`. -/
def wrongKey : List UInt8 := List.replicate 32 43

/-- The primitive's detached decryption inverts its detached encryption for the same
32-byte key, the same 12-byte nonce and empty associated data: whenever
`encrypt_detached` returns 0 on a message `m`, having filled a ciphertext buffer of
`mlen` bytes and a tag buffer of 16 bytes, `decrypt_detached` on these two buffers
returns 0 and fills a buffer of `mlen` bytes with `m`. -/
def AeadInverts (S : Sodium) : Prop :=
  ∀ (k npub m c mac : List UInt8) (maclen : Nat),
    k.length = 32 → npub.length = 12 →
    S.encryptDetached (zeros m.length) (zeros 16) m [] npub k = some (0, c, mac, maclen) →
    S.decryptDetached (zeros m.length) c mac [] npub k = some (0, m)

/-- Argon2id is a function of its arguments wherever it succeeds: a call of the library
as it behaves in one run and a call as it behaves in another, on the same arguments and
both returning 0, write the same bytes. Whether a call returns 0 is left free: it depends
on the memory available to the run. -/
def PwhashAgree (S1 S2 : Sodium) : Prop :=
  ∀ (outlen : Nat) (passwd salt : List UInt8) (opslimit memlimit alg : Nat),
    (S1.crypto_pwhash outlen passwd salt opslimit memlimit alg).ret = 0 →
    (S2.crypto_pwhash outlen passwd salt opslimit memlimit alg).ret = 0 →
    (S1.crypto_pwhash outlen passwd salt opslimit memlimit alg).out =
      (S2.crypto_pwhash outlen passwd salt opslimit memlimit alg).out

/-! ## Buffer lemmas -/

theorem length_zeros (n : Nat) : (zeros n).length = n := by
  simp [zeros]

theorem length_writeBuf (buf out : List UInt8) : (writeBuf buf out).length = buf.length := by
  simp only [writeBuf, List.length_take, List.length_append, List.length_drop]
  omega

theorem writeBuf_eq_self (buf out : List UInt8) (h : out.length = buf.length) :
    writeBuf buf out = out := by
  have hd : buf.drop out.length = [] := List.drop_eq_nil_of_le (by omega)
  simp only [writeBuf, hd, List.append_nil]
  exact List.take_of_length_le (by omega)

theorem length_resize (v : List UInt8) (n : Nat) : (resize v n).length = n := by
  simp only [resize, zeros, List.length_append, List.length_take, List.length_replicate]
  omega

theorem length_randombytes_buf (g : Rng) (n : Nat) : (randombytes_buf g n).1.length = n := by
  simp [randombytes_buf]

theorem view_eq_some (n : Nat) (buf : List UInt8) (h : n ≤ buf.length) :
    view n buf = some (buf.take n) := by
  simp only [view, if_pos h]

theorem view_eq_self (n : Nat) (buf : List UInt8) (h : buf.length = n) :
    view n buf = some buf := by
  rw [view_eq_some n buf (by omega), List.take_of_length_le (by omega)]

theorem view_eq_none (n : Nat) (buf : List UInt8) (h : buf.length < n) :
    view n buf = none := by
  simp only [view, if_neg (by omega : ¬ n ≤ buf.length)]

theorem view_append (n : Nat) (buf extra : List UInt8) (h : n ≤ buf.length) :
    view n (buf ++ extra) = view n buf := by
  rw [view_eq_some n buf h, view_eq_some n (buf ++ extra) (by simp; omega),
    List.take_append_of_le_length h]

/-- The salt buffer of `deriveKey` after `randombytes_buf`: the sixteen bytes drawn. -/
theorem salt_buffer (g : Rng) (salt0 : List UInt8) :
    writeBuf (resize salt0 16) (randombytes_buf g 16).1 = (randombytes_buf g 16).1 :=
  writeBuf_eq_self _ _ (by rw [length_randombytes_buf, length_resize])

/-- The sixteen bytes drawn are all read by `crypto_pwhash`. -/
theorem salt_view (g : Rng) :
    view crypto_pwhash_SALTBYTES (randombytes_buf g 16).1 = some (randombytes_buf g 16).1 :=
  view_eq_self _ _ (by rw [length_randombytes_buf]; rfl)

/-- The `memlimit` argument is 32 MiB in bytes: the 32-bit product does not wrap. -/
theorem memlimit_engine (flag : Bool) : memlimit (engine flag) = 33554432 := by
  simp only [memlimit, engine]
  norm_num

/-- The salt `deriveKey` leaves in `outSalt` is the sixteen bytes drawn from the random
source, whatever `outSalt` held before. -/
theorem deriveKey_outSalt (flag : Bool) (S : Sodium) (g : Rng) (passphrase salt0 : List UInt8) :
    ((engine flag).deriveKey S g passphrase salt0).outSalt = (randombytes_buf g 16).1 := by
  simp only [CryptoEngine.deriveKey, Sodium.pwhash, memlimit_engine]
  simp only [engine, salt_buffer, salt_view]
  split <;> rfl

/-- The outcome of `deriveKey` in terms of the one call it makes to the primitive. -/
theorem deriveKey_result (flag : Bool) (S : Sodium) (g : Rng) (passphrase salt0 : List UInt8) :
    ((engine flag).deriveKey S g passphrase salt0).result =
      if (S.crypto_pwhash 32 passphrase (randombytes_buf g 16).1 2 33554432
            crypto_pwhash_ALG_ARGON2ID13).ret ≠ 0 then
        .error kdfError
      else
        .ok (writeBuf (zeros 32) (S.crypto_pwhash 32 passphrase (randombytes_buf g 16).1 2
          33554432 crypto_pwhash_ALG_ARGON2ID13).out) := by
  simp only [CryptoEngine.deriveKey, Sodium.pwhash, memlimit_engine]
  simp only [engine, salt_buffer, salt_view, crypto_aead_chacha20poly1305_ietf_KEYBYTES]
  split <;> simp

/-- The nonce buffer of `encrypt` after `randombytes_buf`: the twelve bytes drawn. -/
theorem iv_buffer (g : Rng) :
    writeBuf (zeros crypto_aead_chacha20poly1305_ietf_NPUBBYTES)
      (randombytes_buf g crypto_aead_chacha20poly1305_ietf_NPUBBYTES).1 =
    (randombytes_buf g 12).1 :=
  writeBuf_eq_self _ _ (by rw [length_randombytes_buf, length_zeros])

/-- A successful `encrypt` in terms of the one call it makes to the primitive: the call
returned 0 and reported 16 tag bytes, the bundle holds the nonce drawn and the two output
buffers. -/
theorem encrypt_ok (flag : Bool) (S : Sodium) (g g2 : Rng) (key p : List UInt8)
    (b : Ciphertext) (h : (engine flag).encrypt S g key p = (.ok b, g2)) :
    b.iv = (randombytes_buf g 12).1 ∧
    S.encryptDetached (zeros p.length) (zeros 16) p [] (randombytes_buf g 12).1 key =
      some (0, b.data, b.tag, 16) := by
  simp only [CryptoEngine.encrypt, engine, iv_buffer,
    crypto_aead_chacha20poly1305_ietf_ABYTES] at h
  split at h
  · simp at h
  · rename_i ret data tag len hcall
    split at h
    · simp at h
    · rename_i hc
      simp only [not_or, not_not] at hc
      simp only [Prod.mk.injEq, Outcome.ok.injEq] at h
      obtain ⟨hb, -⟩ := h
      subst hb
      refine ⟨rfl, ?_⟩
      rw [hcall, hc.1, hc.2]

/-- The call `decrypt` makes left a vector: the behaviour is undefined. -/
theorem decrypt_of_none (e : CryptoEngine) (S : Sodium) (key : List UInt8) (b : Ciphertext)
    (h : S.decryptDetached (zeros b.data.length) b.data b.tag [] b.iv key = none) :
    e.decrypt S key b = .outOfBounds := by
  simp only [CryptoEngine.decrypt, h]

/-- The outcome of `decrypt` when the call it makes stayed inside the vectors. -/
theorem decrypt_of_some (e : CryptoEngine) (S : Sodium) (key : List UInt8) (b : Ciphertext)
    (ret : Int) (out : List UInt8)
    (h : S.decryptDetached (zeros b.data.length) b.data b.tag [] b.iv key = some (ret, out)) :
    e.decrypt S key b = if ret ≠ 0 then .error decryptError else .ok out := by
  simp only [CryptoEngine.decrypt, h]

/-- With a key of at least 32 bytes, a nonce of at least 12 and a tag of at least 16 the
call `decrypt` makes stays inside the vectors. -/
theorem decryptDetached_readable (S : Sodium) (buf : List UInt8) (key : List UInt8)
    (b : Ciphertext) (hk : 32 ≤ key.length) (hiv : 12 ≤ b.iv.length)
    (htag : 16 ≤ b.tag.length) :
    ∃ ret out, S.decryptDetached buf b.data b.tag [] b.iv key = some (ret, out) := by
  simp only [Sodium.decryptDetached,
    view_eq_some crypto_aead_chacha20poly1305_ietf_ABYTES _ htag,
    view_eq_some crypto_aead_chacha20poly1305_ietf_NPUBBYTES _ hiv,
    view_eq_some crypto_aead_chacha20poly1305_ietf_KEYBYTES _ hk]
  exact ⟨_, _, rfl⟩

/-- All or nothing where every read stays inside its vector (key of at least 32 bytes,
nonce of at least 12, tag of at least 16): `decrypt` returns `p` exactly when the
primitive returns 0 having written `p`, throws the authentication failure in every other
case, and a returned plaintext has the length of the bundle's data. -/
theorem decrypt_all_or_nothing_of_readable (e : CryptoEngine) (S : Sodium)
    (key : List UInt8) (b : Ciphertext) (hk : 32 ≤ key.length) (hiv : 12 ≤ b.iv.length)
    (htag : 16 ≤ b.tag.length) :
    (∀ p, e.decrypt S key b = .ok p ↔
      S.decryptDetached (zeros b.data.length) b.data b.tag [] b.iv key = some (0, p)) ∧
    ((∀ p, e.decrypt S key b ≠ .ok p) → e.decrypt S key b = .error decryptError) ∧
    (∀ p, e.decrypt S key b = .ok p → p.length = b.data.length) := by
  obtain ⟨ret, out, hcall⟩ := decryptDetached_readable S (zeros b.data.length) key b hk hiv htag
  have hd := decrypt_of_some e S key b ret out hcall
  have hlen : out.length = b.data.length := by
    simp only [Sodium.decryptDetached] at hcall
    split at hcall
    · simp only [Option.some.injEq, Prod.mk.injEq] at hcall
      rw [← hcall.2, length_writeBuf, length_zeros]
    · simp at hcall
  by_cases h0 : ret = 0
  · subst h0
    simp only [ne_eq, not_true_eq_false, if_false] at hd
    refine ⟨fun p => ?_, fun hno => absurd hd (hno out), fun p hp => ?_⟩
    · rw [hd, hcall]
      simp
    · rw [hd] at hp
      simp only [Outcome.ok.injEq] at hp
      rw [← hp, hlen]
  · rw [if_pos h0] at hd
    refine ⟨fun p => ?_, fun _ => hd, fun p hp => ?_⟩
    · rw [hd, hcall]
      simp [h0]
    · rw [hd] at hp
      simp at hp

/-- Bytes appended to a tag of at least 16 bytes or to a nonce of at least 12 bytes are
never read: `decrypt` gives the same result as on the bundle without them. -/
theorem decrypt_ignores_tail (e : CryptoEngine) (S : Sodium) (key : List UInt8)
    (b : Ciphertext) (ivExtra tagExtra : List UInt8)
    (hiv : 12 ≤ b.iv.length) (htag : 16 ≤ b.tag.length) :
    e.decrypt S key { iv := b.iv ++ ivExtra, data := b.data, tag := b.tag ++ tagExtra } =
      e.decrypt S key b := by
  simp only [CryptoEngine.decrypt, Sodium.decryptDetached]
  rw [view_append crypto_aead_chacha20poly1305_ietf_NPUBBYTES _ _ hiv,
    view_append crypto_aead_chacha20poly1305_ietf_ABYTES _ _ htag]

/-- With an initialisation that never fails, `n` constructions make `n` calls of
`sodium_init()` and build `n` engines. -/
theorem constructMany_calls (S : Sodium) (hS : ∀ i, 0 ≤ S.sodium_init i) (n calls : Nat) :
    (constructMany S n calls).2 = calls + n ∧ (constructMany S n calls).1.length = n := by
  induction n generalizing calls with
  | zero => simp [constructMany]
  | succ n ih =>
    have hc : CryptoEngine.construct S calls =
        (.ok { libsodiumInitialized := true }, calls + 1) := by
      have := hS calls
      simp only [CryptoEngine.construct]
      simp
      omega
    simp only [constructMany, hc]
    obtain ⟨h1, h2⟩ := ih (calls + 1)
    constructor
    · rw [h1]; omega
    · simp [h2]

/-- The sample cipher satisfies `AeadInverts`. -/
theorem sampleSodium_inverts : AeadInverts sampleSodium := by
  intro k npub m c mac maclen hk hn h
  have hvk : view crypto_aead_chacha20poly1305_ietf_KEYBYTES k = some k :=
    view_eq_self _ _ hk
  have hvn : view crypto_aead_chacha20poly1305_ietf_NPUBBYTES npub = some npub :=
    view_eq_self _ _ hn
  simp only [Sodium.encryptDetached, hvk, hvn, sampleSodium, Option.some.injEq,
    Prod.mk.injEq] at h
  obtain ⟨-, hc, hmac, -⟩ := h
  have hc2 : c = m.map (· + samplePad npub k) := by
    rw [← hc]
    exact writeBuf_eq_self _ _ (by simp [zeros])
  have hmac2 : mac = sampleTag c npub k := by
    rw [← hmac, hc2]
    exact writeBuf_eq_self _ _ (by simp [zeros, sampleTag])
  have hv : view crypto_aead_chacha20poly1305_ietf_ABYTES mac = some mac :=
    view_eq_self _ _ (by rw [hmac2]; simp [sampleTag, crypto_aead_chacha20poly1305_ietf_ABYTES])
  simp only [Sodium.decryptDetached, sampleSodium, hv, hvn, hvk]
  rw [if_pos hmac2]
  simp only [Option.some.injEq, Prod.mk.injEq, true_and]
  have hm : c.map (· - samplePad npub k) = m := by
    rw [hc2, List.map_map]
    have : ((fun x : UInt8 => x - samplePad npub k) ∘
        (fun x : UInt8 => x + samplePad npub k)) = id := by
      funext x
      simp
    rw [this, List.map_id]
  rw [hm]
  exact writeBuf_eq_self _ _ (by simp [zeros])

/-- The sample Argon2id agrees with itself. -/
theorem sampleSodium_agrees : PwhashAgree sampleSodium sampleSodium :=
  fun _ _ _ _ _ _ _ _ => rfl

/-! ## The claims -/

/-- C1. Round trip: for a 32-byte key, any plaintext and whatever nonce `encrypt` draws,
if `encrypt` returns a bundle then `decrypt` under the same key returns exactly the
plaintext, provided the primitive's detached decryption inverts its detached encryption
for the same key, nonce and empty associated data. -/
theorem encrypt_decrypt_roundtrip (S : Sodium) (hS : AeadInverts S) (flag flag2 : Bool)
    (g g2 : Rng) (key p : List UInt8) (hk : key.length = 32) (b : Ciphertext)
    (h : (engine flag).encrypt S g key p = (.ok b, g2)) :
    (engine flag2).decrypt S key b = .ok p := by
  obtain ⟨hiv, henc⟩ := encrypt_ok flag S g g2 key p b h
  have hlen : b.data.length = p.length := by
    simp only [Sodium.encryptDetached] at henc
    split at henc
    · simp only [Option.some.injEq, Prod.mk.injEq] at henc
      rw [← henc.2.1, length_writeBuf, length_zeros]
    · simp at henc
  have hdec := hS key (randombytes_buf g 12).1 p b.data b.tag 16 hk
    (length_randombytes_buf g 12) henc
  rw [← hlen, ← hiv] at hdec
  rw [decrypt_of_some (engine flag2) S key b 0 p hdec]
  simp

/-- Witness of C1 on the sample primitives, the sample key and the plaintext of `main`. -/
theorem encrypt_decrypt_roundtrip_witness :
    AeadInverts sampleSodium ∧ sampleKey.length = 32 ∧
    (engine true).encrypt sampleSodium sampleRng sampleKey original =
      (.ok sampleBundle, (randombytes_buf sampleRng 12).2) ∧
    (engine true).decrypt sampleSodium sampleKey sampleBundle = .ok original :=
  ⟨sampleSodium_inverts, by decide, rfl,
    encrypt_decrypt_roundtrip sampleSodium sampleSodium_inverts true true sampleRng
      (randombytes_buf sampleRng 12).2 sampleKey original (by decide) sampleBundle rfl⟩

/-- C2. Length invariants: whenever `encrypt` returns a bundle, its data has as many bytes
as the plaintext, its iv has 12 bytes and its tag has 16 bytes; for the plaintext of
`main` that is 15 bytes of data. -/
theorem encrypt_lengths (S : Sodium) (flag : Bool) (g g2 : Rng) (key p : List UInt8)
    (b : Ciphertext) (h : (engine flag).encrypt S g key p = (.ok b, g2)) :
    b.data.length = p.length ∧ b.iv.length = 12 ∧ b.tag.length = 16 ∧
    (p = original → b.data.length = 15) := by
  obtain ⟨hiv, henc⟩ := encrypt_ok flag S g g2 key p b h
  have hdt : b.data.length = p.length ∧ b.tag.length = 16 := by
    simp only [Sodium.encryptDetached] at henc
    split at henc
    · simp only [Option.some.injEq, Prod.mk.injEq] at henc
      constructor
      · rw [← henc.2.1, length_writeBuf, length_zeros]
      · rw [← henc.2.2.1, length_writeBuf, length_zeros]
    · simp at henc
  refine ⟨hdt.1, ?_, hdt.2, ?_⟩
  · rw [hiv, length_randombytes_buf]
  · intro hp
    rw [hdt.1, hp]
    decide

/-- Witness of C2: the bundle of `main` under the sample primitives. -/
theorem encrypt_lengths_witness :
    (engine true).encrypt sampleSodium sampleRng sampleKey original =
      (.ok sampleBundle, (randombytes_buf sampleRng 12).2) ∧
    sampleBundle.data.length = original.length ∧ sampleBundle.iv.length = 12 ∧
    sampleBundle.tag.length = 16 ∧ (original = original → sampleBundle.data.length = 15) :=
  ⟨rfl, encrypt_lengths sampleSodium true sampleRng (randombytes_buf sampleRng 12).2
    sampleKey original sampleBundle rfl⟩

/-- C3, evaluated on the code: on a bundle whose tag has 0 or 15 bytes, on a bundle whose
iv has 0 bytes and on an empty key, `decrypt` makes the primitive read 16, 12 or 32
bytes past the end of the vector; what follows is undefined, it is neither the
authentication failure nor a verified plaintext. -/
theorem decrypt_short_buffer_is_no_auth_failure :
    emptyTagBundle.tag.length = 0 ∧
    (engine true).decrypt sampleSodium sampleKey emptyTagBundle = .outOfBounds ∧
    (engine true).decrypt sampleSodium sampleKey emptyTagBundle ≠ .error decryptError ∧
    shortTagBundle.tag.length = 15 ∧
    (engine true).decrypt sampleSodium sampleKey shortTagBundle = .outOfBounds ∧
    emptyIvBundle.iv.length = 0 ∧
    (engine true).decrypt sampleSodium sampleKey emptyIvBundle = .outOfBounds ∧
    (engine true).decrypt sampleSodium [] sampleBundle = .outOfBounds := by
  refine ⟨rfl, rfl, by decide, rfl, rfl, rfl, rfl, rfl⟩

/-- C8. Any two failures of `decrypt`, whatever the keys and bundles, carry the same error
value: the one message of the authentication failure. -/
theorem decrypt_errors_identical (e1 e2 : CryptoEngine) (S : Sodium)
    (key1 key2 : List UInt8) (b1 b2 : Ciphertext) (err1 err2 : String)
    (h1 : e1.decrypt S key1 b1 = .error err1) (h2 : e2.decrypt S key2 b2 = .error err2) :
    err1 = err2 ∧ err1 = decryptError := by
  have key : ∀ (e : CryptoEngine) (k : List UInt8) (b : Ciphertext) (err : String),
      e.decrypt S k b = .error err → err = decryptError := by
    intro e k b err h
    cases hcall : S.decryptDetached (zeros b.data.length) b.data b.tag [] b.iv k with
    | none =>
      rw [decrypt_of_none e S k b hcall] at h
      simp at h
    | some r =>
      rw [decrypt_of_some e S k b r.1 r.2 hcall] at h
      split at h
      · simp only [Outcome.error.injEq] at h
        exact h.symm
      · simp at h
  rw [key e1 key1 b1 err1 h1, key e2 key2 b2 err2 h2]
  exact ⟨rfl, rfl⟩

/-- Witness of C8: altered data under the right key and an intact bundle under a wrong
key fail with the same error. -/
theorem decrypt_errors_identical_witness :
    (engine true).decrypt sampleSodium sampleKey tamperedBundle = .error decryptError ∧
    (engine true).decrypt sampleSodium wrongKey sampleBundle = .error decryptError ∧
    decryptError = decryptError ∧ decryptError = decryptError :=
  ⟨rfl, rfl, decrypt_errors_identical (engine true) (engine true) sampleSodium sampleKey
    wrongKey tamperedBundle sampleBundle decryptError decryptError rfl rfl⟩

/-- C5, evaluated on the code: a bundle whose tag has 17 bytes and a bundle whose iv has
13 bytes are not rejected; `decrypt` reads the first 16 and 12 bytes and returns the
plaintext. -/
theorem decrypt_accepts_malformed_bundle :
    longTagBundle.tag.length = 17 ∧
    (engine true).decrypt sampleSodium sampleKey longTagBundle = .ok original ∧
    longIvBundle.iv.length = 13 ∧
    (engine true).decrypt sampleSodium sampleKey longIvBundle = .ok original :=
  ⟨rfl, rfl, rfl, rfl⟩

/-- C6, evaluated on the code: whatever the `parallelism` member holds, `deriveKey` leaves
the sixteen bytes drawn in `outSalt` and makes the one call
`crypto_pwhash(key, 32, passphrase, salt, 2, 33554432, ARGON2ID13)`, which has no lanes
argument; the member is never read. -/
theorem deriveKey_call_has_no_parallelism (S : Sodium) (flag : Bool) (g : Rng)
    (passphrase salt0 : List UInt8) (lanes : Nat) :
    ({ engine flag with parallelism := lanes }).deriveKey S g passphrase salt0 =
      (engine flag).deriveKey S g passphrase salt0 ∧
    ((engine flag).deriveKey S g passphrase salt0).outSalt = (randombytes_buf g 16).1 ∧
    ((engine flag).deriveKey S g passphrase salt0).outSalt.length = 16 ∧
    ((engine flag).deriveKey S g passphrase salt0).result =
      (if (S.crypto_pwhash 32 passphrase (randombytes_buf g 16).1 2 33554432
            crypto_pwhash_ALG_ARGON2ID13).ret ≠ 0 then
        .error kdfError
      else
        .ok (writeBuf (zeros 32) (S.crypto_pwhash 32 passphrase (randombytes_buf g 16).1 2
          33554432 crypto_pwhash_ALG_ARGON2ID13).out)) := by
  refine ⟨rfl, deriveKey_outSalt flag S g passphrase salt0, ?_,
    deriveKey_result flag S g passphrase salt0⟩
  rw [deriveKey_outSalt, length_randombytes_buf]

/-- C7 as stated fails: with a KDF that reports failure, `deriveKey` throws, yet `outSalt`,
empty before the call, holds sixteen fresh bytes after it. -/
theorem deriveKey_failure_overwrites_salt :
    (failingKdf.crypto_pwhash 32 masterPassword (randombytes_buf sampleRng 16).1 2 33554432
      crypto_pwhash_ALG_ARGON2ID13).ret ≠ 0 ∧
    ((engine true).deriveKey failingKdf sampleRng masterPassword []).result =
      .error kdfError ∧
    ((engine true).deriveKey failingKdf sampleRng masterPassword []).outSalt ≠ [] := by
  refine ⟨by decide, rfl, by decide⟩

/-- C7, amended. When the primitive reports a non-zero status `deriveKey` throws the KDF
failure and returns no key, while `outSalt` holds the sixteen bytes just drawn; a key is
returned only when the primitive reported 0, and it has 32 bytes. -/
theorem deriveKey_failure_returns_no_key (S : Sodium) (flag : Bool) (g : Rng)
    (passphrase salt0 : List UInt8) :
    ((S.crypto_pwhash 32 passphrase (randombytes_buf g 16).1 2 33554432
        crypto_pwhash_ALG_ARGON2ID13).ret ≠ 0 →
      ((engine flag).deriveKey S g passphrase salt0).result = .error kdfError ∧
      ((engine flag).deriveKey S g passphrase salt0).outSalt = (randombytes_buf g 16).1) ∧
    (∀ key, ((engine flag).deriveKey S g passphrase salt0).result = .ok key →
      (S.crypto_pwhash 32 passphrase (randombytes_buf g 16).1 2 33554432
        crypto_pwhash_ALG_ARGON2ID13).ret = 0 ∧ key.length = 32) := by
  constructor
  · intro hne
    exact ⟨by rw [deriveKey_result, if_pos hne], deriveKey_outSalt flag S g passphrase salt0⟩
  · intro key hkey
    rw [deriveKey_result] at hkey
    split at hkey
    · simp at hkey
    · rename_i h0
      simp only [ne_eq, not_not] at h0
      simp only [Outcome.ok.injEq] at hkey
      refine ⟨h0, ?_⟩
      rw [← hkey, length_writeBuf, length_zeros]

/-- Witness of amended C7: the failing KDF on the passphrase of `main`. -/
theorem deriveKey_failure_returns_no_key_witness :
    ((engine true).deriveKey failingKdf sampleRng masterPassword []).result =
      .error kdfError ∧
    ((engine true).deriveKey failingKdf sampleRng masterPassword []).outSalt =
      (randombytes_buf sampleRng 16).1 :=
  (deriveKey_failure_returns_no_key failingKdf true sampleRng masterPassword []).1
    (by decide)

/-- C9 as stated fails: two runs of `deriveKey` on the passphrase of `main` in which the
random source yields the same sixteen bytes leave the same salt in `outSalt`, yet the
run in which Argon2id obtains its memory returns a key and the run in which it does not
throws the KDF failure. -/
theorem deriveKey_same_salt_key_and_failure :
    ((engine true).deriveKey sampleSodium sampleRng masterPassword []).outSalt =
      ((engine true).deriveKey failingKdf sampleRng masterPassword []).outSalt ∧
    ((engine true).deriveKey sampleSodium sampleRng masterPassword []).result =
      .ok (List.replicate 32 255) ∧
    ((engine true).deriveKey failingKdf sampleRng masterPassword []).result =
      .error kdfError ∧
    ((engine true).deriveKey sampleSodium sampleRng masterPassword []).result ≠
      ((engine true).deriveKey failingKdf sampleRng masterPassword []).result := by
  refine ⟨rfl, rfl, rfl, by decide⟩

/-- C9, amended. Two runs of `deriveKey` on the same passphrase in which the random source
yields the same sixteen bytes leave the same salt in `outSalt`, whatever the engines'
flags, the earlier contents of `outSalt` and the rest of the random source; each outcome
is that of the one call of `crypto_pwhash` on the passphrase, that salt and the fixed
parameters; provided Argon2id writes the same bytes whenever it succeeds on the same
arguments, two runs that both return a key return the same key, of 32 bytes. -/
theorem deriveKey_same_key_on_success (S1 S2 : Sodium) (hS : PwhashAgree S1 S2)
    (flag1 flag2 : Bool) (g1 g2 : Rng) (passphrase salt1 salt2 : List UInt8)
    (h : (randombytes_buf g1 16).1 = (randombytes_buf g2 16).1) :
    ((engine flag1).deriveKey S1 g1 passphrase salt1).outSalt =
      ((engine flag2).deriveKey S2 g2 passphrase salt2).outSalt ∧
    (∀ key1 key2, ((engine flag1).deriveKey S1 g1 passphrase salt1).result = .ok key1 →
      ((engine flag2).deriveKey S2 g2 passphrase salt2).result = .ok key2 →
      key1 = key2 ∧ key1.length = 32) ∧
    ((engine flag1).deriveKey S1 g1 passphrase salt1).result =
      (if (S1.crypto_pwhash 32 passphrase
            ((engine flag1).deriveKey S1 g1 passphrase salt1).outSalt 2 33554432
            crypto_pwhash_ALG_ARGON2ID13).ret ≠ 0 then
        .error kdfError
      else
        .ok (writeBuf (zeros 32) (S1.crypto_pwhash 32 passphrase
          ((engine flag1).deriveKey S1 g1 passphrase salt1).outSalt 2 33554432
          crypto_pwhash_ALG_ARGON2ID13).out)) ∧
    ((engine flag2).deriveKey S2 g2 passphrase salt2).result =
      (if (S2.crypto_pwhash 32 passphrase
            ((engine flag1).deriveKey S1 g1 passphrase salt1).outSalt 2 33554432
            crypto_pwhash_ALG_ARGON2ID13).ret ≠ 0 then
        .error kdfError
      else
        .ok (writeBuf (zeros 32) (S2.crypto_pwhash 32 passphrase
          ((engine flag1).deriveKey S1 g1 passphrase salt1).outSalt 2 33554432
          crypto_pwhash_ALG_ARGON2ID13).out)) := by
  refine ⟨?_, ?_, ?_, ?_⟩
  · rw [deriveKey_outSalt, deriveKey_outSalt, h]
  · intro key1 key2 h1 h2
    have l1 := (deriveKey_failure_returns_no_key S1 flag1 g1 passphrase salt1).2 key1 h1
    have l2 := (deriveKey_failure_returns_no_key S2 flag2 g2 passphrase salt2).2 key2 h2
    rw [deriveKey_result, if_neg (by simp [l1.1])] at h1
    rw [deriveKey_result, if_neg (by simp [l2.1])] at h2
    simp only [Outcome.ok.injEq] at h1 h2
    rw [← h] at l2 h2
    refine ⟨?_, l1.2⟩
    rw [← h1, ← h2, hS _ _ _ _ _ _ l1.1 l2.1]
  · rw [deriveKey_outSalt, deriveKey_result]
  · rw [deriveKey_outSalt, deriveKey_result, h]

/-- Witness of amended C9: two random sources that agree on their first sixteen bytes
only, two different earlier contents of `outSalt`, two flags; both runs return the same
key. -/
theorem deriveKey_same_key_on_success_witness :
    PwhashAgree sampleSodium sampleSodium ∧
    (randombytes_buf sampleRng 16).1 = (randombytes_buf otherRng 16).1 ∧
    ((engine true).deriveKey sampleSodium sampleRng masterPassword []).outSalt =
      ((engine false).deriveKey sampleSodium otherRng masterPassword [9, 9, 9]).outSalt ∧
    ((engine true).deriveKey sampleSodium sampleRng masterPassword []).result =
      .ok (List.replicate 32 255) ∧
    ((engine false).deriveKey sampleSodium otherRng masterPassword [9, 9, 9]).result =
      .ok (List.replicate 32 255) ∧
    List.replicate 32 (255 : UInt8) = List.replicate 32 255 ∧
    (List.replicate 32 (255 : UInt8)).length = 32 :=
  have h := deriveKey_same_key_on_success sampleSodium sampleSodium sampleSodium_agrees
    true false sampleRng otherRng masterPassword [] [9, 9, 9] (by decide)
  ⟨sampleSodium_agrees, by decide, h.1, rfl, rfl,
    h.2.1 (List.replicate 32 255) (List.replicate 32 255) rfl rfl⟩

/-- C10, evaluated on the code: two constructions in one process call `sodium_init()`
twice, the second engine starting, like the first, with its own flag unset. -/
theorem two_constructions_two_init_calls :
    (CryptoEngine.construct sampleSodium 0).2 = 1 ∧
    (CryptoEngine.construct sampleSodium 1).2 = 2 ∧
    (constructMany sampleSodium 2 0).2 = 2 ∧
    (constructMany sampleSodium 5 0).2 = 5 := by
  refine ⟨rfl, rfl, rfl, rfl⟩

end CPlusPass
